import Mathlib

/-!
# LankaShop-CMS — verification of the client-side aggregation layer

Shallow embedding of the view-model aggregation and filtering logic of the
LankaShop-CMS admin dashboard:

* `src/components/customers/customers-table.tsx` — customer spend aggregation
  (`fetchCustomers`) and the customers substring filter;
* `src/components/categories/category-form.tsx` — per-category product counts
  (`fetchCategories`), the categories substring filter, and the delete guard
  (`handleDeleteCategory`);
* `src/components/dashboard-nav.tsx` (`ProductsTable`) — category-name
  resolution (`fetchProducts`), the products substring filter, and
  `handleDeleteProduct`.

JavaScript numbers are modelled as rationals (`ℚ`); a JS string field that may
be `undefined` at runtime is modelled as `Option String`; JS truthiness of a
string is `s ≠ ""`.  Effectful handlers are modelled as state transformers that
also emit the list of external calls (toasts, `deleteDoc`) they issue.
-/

namespace LankaShop

/-! ## JavaScript string primitives -/

/-- Whether the character list `q` occurs as a prefix of `s`
(the helper behind `String.prototype.includes`). -/
def prefixAt : List Char → List Char → Bool
  | [], _ => true
  | _ :: _, [] => false
  | a :: as, b :: bs => a = b && prefixAt as bs

/-- Whether `q` occurs as a contiguous run inside `s`. -/
def containsRun (s q : List Char) : Bool :=
  match s with
  | [] => q.isEmpty
  | _ :: rest => prefixAt q s || containsRun rest q

/-- Model of `s.includes(q)` on JavaScript strings: substring containment. -/
def jsIncludes (s q : String) : Bool :=
  containsRun s.toList q.toList

/-- Model of `s.toLowerCase()`: per-character lowering (ASCII-faithful;
locale-specific Unicode foldings are outside the model). -/
def jsToLower (s : String) : String :=
  String.mk (s.toList.map Char.toLower)

/-! ## JavaScript number primitives

`Number.parseFloat` is modelled on rationals: optional leading whitespace, an
optional sign, then decimal digits with an optional fraction part.  Exponent
notation, `Infinity` and the double-precision representation are outside the
model; no claim below depends on them.  `none` stands for `NaN`. -/

/-- Split a leading run of decimal digits off a character list,
returning their values. -/
def takeDigits : List Char → List Nat × List Char
  | [] => ([], [])
  | c :: rest =>
    if c.isDigit then
      let p := takeDigits rest
      ((c.toNat - 48) :: p.1, p.2)
    else ([], c :: rest)

/-- Value of a digit run read as an integer part. -/
def natOfDigits (ds : List Nat) : Nat :=
  ds.foldl (fun a d => a * 10 + d) 0

/-- Value of a digit run read as a fraction part (digits after the point). -/
def fracOfDigits (ds : List Nat) : ℚ :=
  ds.foldr (fun d a => ((d : ℚ) + a) / 10) 0

/-- Model of `Number.parseFloat`: `none` is `NaN`. -/
def jsParseFloat (s : String) : Option ℚ :=
  let cs := s.toList.dropWhile (fun c => c = ' ' || c = '\t' || c = '\n' || c = '\r')
  let sp : ℚ × List Char :=
    match cs with
    | c :: rest =>
      if c = '-' then (-1, rest)
      else if c = '+' then (1, rest) else (1, c :: rest)
    | [] => (1, [])
  let ip := takeDigits sp.2
  let fp : List Nat × List Char :=
    match ip.2 with
    | c :: rest => if c = '.' then takeDigits rest else ([], [])
    | [] => ([], [])
  if ip.1.isEmpty && fp.1.isEmpty then none
  else some (sp.1 * ((natOfDigits ip.1 : ℚ) + fracOfDigits fp.1))

/-- Model of `Number.parseFloat(x) || 0` applied to an optional string field:
a missing field or an unparseable string contributes `0`.  (In the source the
`|| 0` also maps a parsed `0`/`-0` to `0`, which is the identity here.) -/
def parsedAmount : Option String → ℚ
  | none => 0
  | some s => (jsParseFloat s).getD 0

/-- Two-digit zero padding for the fraction part of `toFixed(2)`. -/
def pad2 (n : Nat) : String :=
  if n < 10 then "0" ++ toString n else toString n

/-- Model of `x.toFixed(2)` on rationals: round half away from zero to two
fraction digits (the double-precision representation detour of the real
`toFixed` is outside the model). -/
def toFixed2 (q : ℚ) : String :=
  let k : Nat := (Rat.floor (|q| * 100 + 1 / 2)).toNat
  let body := toString (k / 100) ++ "." ++ pad2 (k % 100)
  if q < 0 then "-" ++ body else body

/-! ## Customers screen (`customers-table.tsx`)

`fetchCustomers` reads every order and every customer, groups the orders by
`userId` into `{ total, count }` accumulators, and maps each customer document
to a table row.  A `userId` field that is absent at runtime is modelled as the
empty string: both are falsy in the source's `if (order.userId)` guard. -/

/-- An order document as read by `fetchCustomers`: only `userId` and
`totalAmount` are consulted.  `totalAmount` may be missing (`none`). -/
structure Order where
  userId : String
  totalAmount : Option String
  deriving DecidableEq, Repr

/-- A customer document as read by `fetchCustomers`. -/
structure CustomerDoc where
  id : String
  userId : String
  createdAt : String
  deriving DecidableEq, Repr

/-- The `{ total, count }` accumulator of the grouping pass. -/
structure Accum where
  total : ℚ
  count : Nat
  deriving DecidableEq, Repr

/-- One step of the grouping pass over orders: skip the order when its
`userId` is falsy, otherwise add `parseFloat(totalAmount) || 0` to the
accumulator of that `userId` and bump its count. -/
def ordersStep (m : String → Option Accum) (o : Order) : String → Option Accum :=
  if o.userId = "" then m
  else
    let prev := (m o.userId).getD ⟨0, 0⟩
    fun k =>
      if k = o.userId then some ⟨prev.total + parsedAmount o.totalAmount, prev.count + 1⟩
      else m k

/-- The `customerOrders` record built by the single pass over all orders. -/
def customerOrdersMap (orders : List Order) : String → Option Accum :=
  orders.foldl ordersStep (fun _ => none)

/-- A row of the customers table. -/
structure CustomerRow where
  id : String
  userId : String
  createdAt : String
  totalAmount : String
  orderCount : Nat
  deriving DecidableEq, Repr

/-- Mapping of one customer document to its table row:
`customerOrders[userId]?.total.toFixed(2) || "0.00"` and
`customerOrders[userId]?.count || 0`. -/
def customerRow (m : String → Option Accum) (c : CustomerDoc) : CustomerRow :=
  { id := c.id
    userId := c.userId
    createdAt := c.createdAt
    totalAmount := match m c.userId with
      | some a => toFixed2 a.total
      | none => "0.00"
    orderCount := match m c.userId with
      | some a => a.count
      | none => 0 }

/-- The row list produced by `fetchCustomers` from the two snapshots. -/
def fetchCustomersRows (orders : List Order) (customers : List CustomerDoc) :
    List CustomerRow :=
  customers.map (customerRow (customerOrdersMap orders))

/-- The orders of one `userId` (the orders a spec-level aggregation would
attribute to a customer with that `userId`). -/
def ordersFor (uid : String) (orders : List Order) : List Order :=
  orders.filter (fun o => o.userId = uid)

/-- Spec-level sum of the parsed `totalAmount` values of a list of orders. -/
def sumAmounts (orders : List Order) : ℚ :=
  (orders.map (fun o => parsedAmount o.totalAmount)).sum

/-! ## Categories screen (`category-form.tsx`, `CategoriesTable`)

`fetchCategories` reads every category and every product, counts the products
per `categoryId` (skipping products whose `categoryId` is falsy), and attaches
`productCount` to each category row.  `handleDeleteCategory` re-checks the
derived count before issuing `deleteDoc`. -/

/-- A category document: a Firestore document id plus a `name` field. -/
structure CategoryDoc where
  id : String
  name : String
  deriving DecidableEq, Repr

/-- A product document as read by the categories and products screens.
`categoryId` and `description` may be absent at runtime (`none`), even though
the `Product` interface declares `description` as a plain string. -/
structure ProductDoc where
  id : String
  name : String
  description : Option String
  categoryId : Option String
  deriving DecidableEq, Repr

/-- One step of the product-counting pass: skip the product when its
`categoryId` is falsy (`undefined`, `null` or `""`), otherwise increment the
count stored under that id. -/
def countStep (m : String → Option Nat) (p : ProductDoc) : String → Option Nat :=
  match p.categoryId with
  | none => m
  | some cid =>
    if cid = "" then m
    else fun k => if k = cid then some ((m cid).getD 0 + 1) else m k

/-- The `productCounts` record built by the single pass over all products. -/
def productCounts (products : List ProductDoc) : String → Option Nat :=
  products.foldl countStep (fun _ => none)

/-- A row of the categories table (`productCount` is always attached by the
fetch, defaulting to `0` via `productCounts[doc.id] || 0`). -/
structure CategoryRow where
  id : String
  name : String
  productCount : Nat
  deriving DecidableEq, Repr

/-- Mapping of one category document to its table row. -/
def categoryRow (m : String → Option Nat) (g : CategoryDoc) : CategoryRow :=
  { id := g.id, name := g.name, productCount := (m g.id).getD 0 }

/-- The row list produced by `fetchCategories` from the two snapshots. -/
def fetchCategoriesRows (categories : List CategoryDoc)
    (products : List ProductDoc) : List CategoryRow :=
  categories.map (categoryRow (productCounts products))

/-- External calls a handler can issue: an error toast, a success toast, or a
destructive `deleteDoc(doc(db, collectionName, documentId))`. -/
inductive Eff where
  | toastError (title : String)
  | toastSuccess (title : String)
  | deleteDocCall (collectionName documentId : String)
  deriving DecidableEq, Repr

/-- Component state of `CategoriesTable` that `handleDeleteCategory` touches:
the two row lists, the current search query and the pending delete id. -/
structure CatState where
  categories : List CategoryRow
  filteredCategories : List CategoryRow
  searchQuery : String
  deleteCategoryId : Option String
  deriving DecidableEq, Repr

/-- `handleDeleteCategory`: no-op when no delete is pending; abort with a
specific error toast — before any `deleteDoc` — when the pending category is
found with `productCount > 0` (the JS guard
`category?.productCount && category.productCount > 0`); otherwise issue
`deleteDoc` and drop the row from both lists.  Returns the new state and the
external calls in the order they are issued. -/
def handleDeleteCategory (s : CatState) : CatState × List Eff :=
  match s.deleteCategoryId with
  | none => (s, [])
  | some did =>
    match s.categories.find? (fun c => c.id = did) with
    | some c =>
      if 0 < c.productCount then
        ({ s with deleteCategoryId := none }, [Eff.toastError "Cannot delete category"])
      else
        ({ categories := s.categories.filter (fun g => g.id ≠ did)
           filteredCategories := s.filteredCategories.filter (fun g => g.id ≠ did)
           searchQuery := s.searchQuery
           deleteCategoryId := none },
         [Eff.deleteDocCall "categories" did, Eff.toastSuccess "Category deleted"])
    | none =>
      ({ categories := s.categories.filter (fun g => g.id ≠ did)
         filteredCategories := s.filteredCategories.filter (fun g => g.id ≠ did)
         searchQuery := s.searchQuery
         deleteCategoryId := none },
       [Eff.deleteDocCall "categories" did, Eff.toastSuccess "Category deleted"])

/-- Whether a run of `handleDeleteCategory` issued the destructive call. -/
def issuesDelete (s : CatState) : Bool :=
  (handleDeleteCategory s).2.any fun e =>
    match e with
    | Eff.deleteDocCall _ _ => true
    | _ => false

/-! ## Products screen (`dashboard-nav.tsx`, `ProductsTable`)

`fetchProducts` builds a `Map` from category id to name and attaches
`categoryName` to each product: `data.categoryId ? categoriesMap.get(...)
: "Uncategorized"`.  Note that `Map.get` on an unresolved id yields
`undefined` (`none` here), not the label. -/

/-- One `categoriesMap.set(doc.id, doc.data().name)` step; a later `set` on
the same key overwrites an earlier one. -/
def catMapStep (m : String → Option String) (g : CategoryDoc) :
    String → Option String :=
  fun k => if k = g.id then some g.name else m k

/-- The `categoriesMap` built from the categories snapshot. -/
def buildCategoriesMap (categories : List CategoryDoc) : String → Option String :=
  categories.foldl catMapStep (fun _ => none)

/-- A row of the products table; `categoryName` is `Option` because the
lookup can yield `undefined`. -/
structure ProductRow where
  id : String
  name : String
  description : Option String
  categoryId : Option String
  categoryName : Option String
  deriving DecidableEq, Repr

/-- Mapping of one product document to its table row:
`categoryName = data.categoryId ? categoriesMap.get(data.categoryId)
: "Uncategorized"`. -/
def productRow (m : String → Option String) (p : ProductDoc) : ProductRow :=
  { id := p.id
    name := p.name
    description := p.description
    categoryId := p.categoryId
    categoryName := match p.categoryId with
      | none => some "Uncategorized"
      | some cid => if cid = "" then some "Uncategorized" else m cid }

/-- The row list produced by `fetchProducts` from the two snapshots. -/
def fetchProductsRows (products : List ProductDoc)
    (categories : List CategoryDoc) : List ProductRow :=
  products.map (productRow (buildCategoriesMap categories))

/-- The category cell rendered for a row:
`product.categoryName ? product.categoryName : "Uncategorized"`. -/
def displayedCategoryLabel (r : ProductRow) : String :=
  match r.categoryName with
  | some n => if n = "" then "Uncategorized" else n
  | none => "Uncategorized"

/-! ## Local substring search filter (§4.4)

Every table keeps `rows` and `filtered` in state and re-derives `filtered`
from the current query: `if (searchQuery) setFiltered(rows.filter(matches))
else setFiltered(rows)`. -/

/-- The per-screen filter shape: the full list when the query is falsy
(empty), otherwise the rows whose searchable fields match. -/
def localFilter {α : Type} (sel : α → String → Bool) (q : String)
    (L : List α) : List α :=
  if q = "" then L else L.filter (fun r => sel r q)

/-- Customers screen match: `customer.userId.toLowerCase()
.includes(searchQuery.toLowerCase())`. -/
def customerMatches (c : CustomerRow) (q : String) : Bool :=
  jsIncludes (jsToLower c.userId) (jsToLower q)

/-- Categories screen match: `category.name.toLowerCase()
.includes(searchQuery.toLowerCase())`. -/
def categoryMatches (c : CategoryRow) (q : String) : Bool :=
  jsIncludes (jsToLower c.name) (jsToLower q)

/-- Products screen match on a row whose `description` is present, as the
`Product` interface declares: name, description or resolved category name. -/
def productMatches (p : ProductRow) (q : String) : Bool :=
  jsIncludes (jsToLower p.name) (jsToLower q)
    || jsIncludes (jsToLower (p.description.getD "")) (jsToLower q)
    || (match p.categoryName with
        | some n => jsIncludes (jsToLower n) (jsToLower q)
        | none => false)

/-- Products screen match as it executes on an arbitrary runtime document:
`product.name.toLowerCase().includes(q)` first; on a miss,
`product.description.toLowerCase()` runs unguarded and throws a `TypeError`
(`Except.error ()`) when `description` is `undefined`; the
`product.categoryName?.toLowerCase()` branch is optionally chained and an
`undefined` result is falsy. -/
def productMatchRt (p : ProductRow) (q : String) : Except Unit Bool :=
  if jsIncludes (jsToLower p.name) (jsToLower q) then Except.ok true
  else
    match p.description with
    | none => Except.error ()
    | some d =>
      Except.ok (jsIncludes (jsToLower d) (jsToLower q)
        || (match p.categoryName with
            | some n => jsIncludes (jsToLower n) (jsToLower q)
            | none => false))

/-- `products.filter(...)` on runtime documents: left to right, stopping at
the first thrown `TypeError`; the empty query skips the filter entirely. -/
def productFilterRt (q : String) : List ProductRow → Except Unit (List ProductRow)
  | [] => Except.ok []
  | p :: rest =>
    match productMatchRt p q with
    | Except.error e => Except.error e
    | Except.ok b =>
      match productFilterRt q rest with
      | Except.error e => Except.error e
      | Except.ok r => Except.ok (if b then p :: r else r)

/-- The products filter effect, empty-query short-circuit included:
`if (searchQuery) setFiltered(products.filter(...)) else
setFiltered(products)`. -/
def productsFilterRun (q : String) (L : List ProductRow) :
    Except Unit (List ProductRow) :=
  if q = "" then Except.ok L else productFilterRt q L

/-! ## Table state machine (shared shape of the three tables)

Each table component keeps the full row list, the filtered row list and the
query.  A completed fetch writes the fetched rows to both lists; the filter
effect re-derives `filtered` on every query change; a successful delete drops
the deleted id from both lists. -/

/-- Component state common to the three tables. -/
structure TableState (α : Type) where
  rows : List α
  filtered : List α
  query : String

/-- Fetch completion: `setRows(data); setFiltered(data)`. -/
def fetchComplete {α : Type} (data : List α) (s : TableState α) : TableState α :=
  { rows := data, filtered := data, query := s.query }

/-- The filter effect after a query change: `filtered` is re-derived from the
full list under the new query. -/
def setQuery {α : Type} (sel : α → String → Bool) (q : String)
    (s : TableState α) : TableState α :=
  { rows := s.rows, filtered := localFilter sel q s.rows, query := q }

/-- A successful delete (`handleDeleteProduct`, and the proceed path of
`handleDeleteCategory`): the deleted id is filtered out of both lists. -/
def deleteRow {α : Type} (idOf : α → String) (d : String)
    (s : TableState α) : TableState α :=
  { rows := s.rows.filter (fun r => idOf r ≠ d)
    filtered := s.filtered.filter (fun r => idOf r ≠ d)
    query := s.query }

/-- The displayed-list invariant: `filtered` is exactly the filter of the
full list under the current query. -/
def tableInv {α : Type} (sel : α → String → Bool) (s : TableState α) : Prop :=
  s.filtered = localFilter sel s.query s.rows

/-- The same invariant for the `CategoriesTable` state acted on by
`handleDeleteCategory`. -/
def catInv (s : CatState) : Prop :=
  s.filteredCategories = localFilter categoryMatches s.searchQuery s.categories

/-! ## Helper lemmas -/

lemma ordersStep_ne (m : String → Option Accum) (o : Order) (uid : String)
    (h : o.userId ≠ uid) : ordersStep m o uid = m uid := by
  unfold ordersStep
  by_cases h0 : o.userId = ""
  · simp [h0]
  · simp only [h0, if_neg h0]
    have : ¬ uid = o.userId := fun hc => h hc.symm
    simp [this]

lemma ordersStep_eq (m : String → Option Accum) (o : Order) (uid : String)
    (h : o.userId = uid) (h0 : uid ≠ "") :
    ordersStep m o uid =
      some ⟨((m uid).getD ⟨0, 0⟩).total + parsedAmount o.totalAmount,
            ((m uid).getD ⟨0, 0⟩).count + 1⟩ := by
  unfold ordersStep
  have h1 : ¬ o.userId = "" := by rw [h]; exact h0
  simp [h1, h, h0]

lemma foldl_ordersStep_lookup (orders : List Order)
    (m : String → Option Accum) (uid : String) (h : uid ≠ "") :
    (orders.foldl ordersStep m) uid =
      if (ordersFor uid orders).length = 0 then m uid
      else some ⟨((m uid).getD ⟨0, 0⟩).total + sumAmounts (ordersFor uid orders),
                 ((m uid).getD ⟨0, 0⟩).count + (ordersFor uid orders).length⟩ := by
  induction orders generalizing m with
  | nil => simp [ordersFor]
  | cons o os ih =>
    by_cases hx : o.userId = uid
    · have hcons : ordersFor uid (o :: os) = o :: ordersFor uid os := by
        simp [ordersFor, List.filter_cons, hx]
      rw [List.foldl_cons, ih (ordersStep m o), ordersStep_eq m o uid hx h, hcons]
      by_cases hz : (ordersFor uid os).length = 0
      · have : ordersFor uid os = [] := List.length_eq_zero.mp hz
        simp [hz, this, sumAmounts]
      · have hsum : sumAmounts (o :: ordersFor uid os) =
            parsedAmount o.totalAmount + sumAmounts (ordersFor uid os) := by
          simp [sumAmounts]
        have hne : ¬((ordersFor uid os).length + 1 = 0) := by omega
        simp only [if_neg hz, List.length_cons, if_neg hne, Option.getD_some, hsum]
        apply congrArg some
        simp only [Accum.mk.injEq]
        exact ⟨by ring, by omega⟩
    · have hcons : ordersFor uid (o :: os) = ordersFor uid os := by
        simp [ordersFor, List.filter_cons, hx]
      rw [List.foldl_cons, ih (ordersStep m o), ordersStep_ne m o uid hx, hcons]

lemma customerOrdersMap_lookup (orders : List Order) (uid : String)
    (h : uid ≠ "") :
    customerOrdersMap orders uid =
      if (ordersFor uid orders).length = 0 then none
      else some ⟨sumAmounts (ordersFor uid orders),
                 (ordersFor uid orders).length⟩ := by
  unfold customerOrdersMap
  rw [foldl_ordersStep_lookup orders _ uid h]
  simp

lemma customerOrdersMap_empty_key (orders : List Order) :
    customerOrdersMap orders "" = none := by
  unfold customerOrdersMap
  have key : ∀ (os : List Order) (m : String → Option Accum),
      (os.foldl ordersStep m) "" = m "" := by
    intro os
    induction os with
    | nil => intro m; rfl
    | cons o os ih =>
      intro m
      rw [List.foldl_cons, ih]
      unfold ordersStep
      by_cases h0 : o.userId = ""
      · simp [h0]
      · have : ¬ ("" : String) = o.userId := fun hc => h0 hc.symm
        simp [h0, this]
  exact key orders _

lemma ratFloor_eq_intFloor (q : ℚ) : Rat.floor q = ⌊q⌋ := rfl

lemma toFixed2_zero : toFixed2 0 = "0.00" := by
  unfold toFixed2
  have h : Rat.floor (|(0 : ℚ)| * 100 + 1 / 2) = 0 := by
    rw [ratFloor_eq_intFloor, Int.floor_eq_zero_iff]
    norm_num
  rw [h]
  norm_num [pad2]
  rfl

/-! ## Claims -/

/-- **C1** (amended).  The customer spend aggregation produces exactly one row
per customer; for every customer whose `userId` is non-empty (truthy), the
row's `orderCount` is the number of orders with that `userId` and its
`totalAmount` is the two-decimal formatting of the sum of their parsed
amounts, with `"0.00"`/`0` when no order matches.  (As stated for all
customers the claim fails: the source's `if (order.userId)` guard drops
orders with a falsy `userId`, so a customer whose `userId` is the empty
string gets `"0.00"`/`0` even when matching orders exist.) -/
theorem customer_spend_rows_correct (orders : List Order)
    (customers : List CustomerDoc) (c : CustomerDoc) (h : c.userId ≠ "") :
    (fetchCustomersRows orders customers).length = customers.length ∧
    (customerRow (customerOrdersMap orders) c).orderCount
        = (ordersFor c.userId orders).length ∧
    (customerRow (customerOrdersMap orders) c).totalAmount
        = toFixed2 (sumAmounts (ordersFor c.userId orders)) ∧
    ((ordersFor c.userId orders).length = 0 →
      (customerRow (customerOrdersMap orders) c).totalAmount = "0.00" ∧
      (customerRow (customerOrdersMap orders) c).orderCount = 0) := by
  have h1 := customerOrdersMap_lookup orders c.userId h
  by_cases hz : (ordersFor c.userId orders).length = 0
  · have he : ordersFor c.userId orders = [] := List.length_eq_zero.mp hz
    refine ⟨by simp [fetchCustomersRows], ?_, ?_, ?_⟩ <;>
      simp [customerRow, h1, hz, he, sumAmounts, toFixed2_zero]
  · refine ⟨by simp [fetchCustomersRows], ?_, ?_, ?_⟩ <;>
      simp [customerRow, h1, hz]

/-- **C1** witness: one order of amount `"5"` for the sole customer `"u1"`. -/
theorem customer_spend_rows_correct_witness :
    ("u1" : String) ≠ "" ∧
    ((fetchCustomersRows [⟨"u1", some "5"⟩] [⟨"c1", "u1", "t"⟩]).length
        = ([⟨"c1", "u1", "t"⟩] : List CustomerDoc).length ∧
     (customerRow (customerOrdersMap [⟨"u1", some "5"⟩])
        ⟨"c1", "u1", "t"⟩).orderCount
        = (ordersFor "u1" [⟨"u1", some "5"⟩]).length ∧
     (customerRow (customerOrdersMap [⟨"u1", some "5"⟩])
        ⟨"c1", "u1", "t"⟩).totalAmount
        = toFixed2 (sumAmounts (ordersFor "u1" [⟨"u1", some "5"⟩])) ∧
     ((ordersFor "u1" [⟨"u1", some "5"⟩]).length = 0 →
       (customerRow (customerOrdersMap [⟨"u1", some "5"⟩])
          ⟨"c1", "u1", "t"⟩).totalAmount = "0.00" ∧
       (customerRow (customerOrdersMap [⟨"u1", some "5"⟩])
          ⟨"c1", "u1", "t"⟩).orderCount = 0)) :=
  ⟨by decide,
   customer_spend_rows_correct [⟨"u1", some "5"⟩] [⟨"c1", "u1", "t"⟩]
     ⟨"c1", "u1", "t"⟩ (by decide)⟩

/-- **C1** counterexample: one order and one customer, both with `userId`
equal to the empty string.  Exactly one order's `userId` equals the
customer's `userId`, yet the produced row has `orderCount = 0`, because the
source's `if (order.userId)` guard skips the order. -/
theorem customer_spend_rows_cex :
    ((fetchCustomersRows [⟨"", some "5"⟩] [⟨"c1", "", "t"⟩]).map
        (fun r => r.orderCount)) = [0] ∧
    (ordersFor "" [(⟨"", some "5"⟩ : Order)]).length = 1 := by
  decide

/-- Auxiliary: the sum of an indicator over a list is the filtered length. -/
lemma sum_indicator {α : Type} (q : α → Bool) (O : List α) :
    (O.map (fun o => if q o then 1 else 0)).sum = (O.filter q).length := by
  induction O with
  | nil => simp
  | cons o os ih =>
    by_cases h : q o
    · simp [List.filter_cons, h, ih]
      omega
    · simp [List.filter_cons, h, ih]

/-- Auxiliary: sums of pointwise sums split. -/
lemma sum_map_add {α : Type} (f g : α → ℕ) (O : List α) :
    (O.map (fun o => f o + g o)).sum = (O.map f).sum + (O.map g).sum := by
  induction O with
  | nil => simp
  | cons o os ih => simp [ih]; omega

/-- Auxiliary double-counting identity: summing, over the outer list, the
number of inner elements each outer element is related to equals the sum
taken the other way round. -/
lemma double_count {γ α : Type} (C : List γ) (O : List α) (p : γ → α → Bool) :
    (C.map (fun c => (O.filter (fun o => p c o)).length)).sum
      = (O.map (fun o => (C.filter (fun c => p c o)).length)).sum := by
  induction C with
  | nil => simp
  | cons c cs ih =>
    simp only [List.map_cons, List.sum_cons, ih]
    have hsplit : ∀ o : α, ((c :: cs).filter (fun g => p g o)).length
        = (if p c o then 1 else 0) + (cs.filter (fun g => p g o)).length := by
      intro o
      by_cases h : p c o
      · simp [List.filter_cons, h]
        omega
      · simp [List.filter_cons, h]
    have hmap : O.map (fun o => ((c :: cs).filter (fun g => p g o)).length)
        = O.map (fun o => (if p c o then 1 else 0)
            + (cs.filter (fun g => p g o)).length) :=
      List.map_congr_left (fun o _ => hsplit o)
    rw [hmap, sum_map_add, sum_indicator]

/-- Auxiliary: every row's `orderCount` is the number of orders with that
customer's `userId`, provided every order's `userId` is truthy. -/
lemma rowCount_eq (orders : List Order) (c : CustomerDoc)
    (h0 : ∀ o ∈ orders, o.userId ≠ "") :
    (customerRow (customerOrdersMap orders) c).orderCount
      = (ordersFor c.userId orders).length := by
  by_cases hc : c.userId = ""
  · have hnil : ordersFor c.userId orders = [] := by
      rw [hc]
      simp only [ordersFor, List.filter_eq_nil_iff]
      intro o ho
      simpa using h0 o ho
    rw [hc] at hnil
    simp [customerRow, hc, customerOrdersMap_empty_key, hnil]
  · have h1 := customerOrdersMap_lookup orders c.userId hc
    by_cases hz : (ordersFor c.userId orders).length = 0 <;>
      simp [customerRow, h1, hz]

/-- Auxiliary: a list summing a constant `1`. -/
lemma sum_map_one {α : Type} (O : List α) :
    (O.map (fun _ => (1 : ℕ))).sum = O.length := by
  induction O with
  | nil => simp
  | cons o os ih => simp [ih]; omega

/-- **C2** (amended).  Under the §3 invariant that every order's `userId`
matches exactly one customer — strengthened by the requirement that every
order's `userId` is non-empty, which the source's `if (order.userId)` guard
makes necessary — the rows' `orderCount`s sum to the number of orders whose
`userId` belongs to the customers' `userId` set.  (As stated, with the §3
invariant alone, the claim fails: an order and its unique matching customer
may share the empty `userId`, and the guard then drops the order.) -/
theorem order_count_conservation (orders : List Order)
    (customers : List CustomerDoc)
    (h0 : ∀ o ∈ orders, o.userId ≠ "")
    (h1 : ∀ o ∈ orders,
      (customers.filter (fun c => o.userId = c.userId)).length = 1) :
    ((fetchCustomersRows orders customers).map (fun r => r.orderCount)).sum
      = (orders.filter
          (fun o => (customers.map (fun c => c.userId)).contains o.userId)).length := by
  have hL : (fetchCustomersRows orders customers).map (fun r => r.orderCount)
      = customers.map
          (fun c => (orders.filter (fun o => o.userId = c.userId)).length) := by
    unfold fetchCustomersRows
    rw [List.map_map]
    exact List.map_congr_left (fun c _ => rowCount_eq orders c h0)
  rw [hL, double_count customers orders (fun c o => o.userId = c.userId)]
  have hone : orders.map
      (fun o => (customers.filter (fun c => o.userId = c.userId)).length)
      = orders.map (fun _ => (1 : ℕ)) :=
    List.map_congr_left (fun o ho => h1 o ho)
  rw [hone, sum_map_one]
  have hall : orders.filter
      (fun o => (customers.map (fun c => c.userId)).contains o.userId)
      = orders := by
    rw [List.filter_eq_self]
    intro o ho
    have hlen := h1 o ho
    have hne : customers.filter (fun c => o.userId = c.userId) ≠ [] := by
      intro hcon
      rw [hcon] at hlen
      simp at hlen
    obtain ⟨c, hc⟩ := List.exists_mem_of_ne_nil _ hne
    have hmem := List.mem_filter.mp hc
    have : o.userId ∈ customers.map (fun c => c.userId) := by
      refine List.mem_map.mpr ⟨c, hmem.1, ?_⟩
      have := hmem.2
      simp at this
      exact this.symm
    simpa [List.contains_iff_exists_mem_beq] using
      List.elem_eq_true_of_mem this
  rw [hall]

/-- **C2** witness: two orders for the sole customer `"u1"`. -/
theorem order_count_conservation_witness :
    (∀ o ∈ ([⟨"u1", some "5"⟩, ⟨"u1", none⟩] : List Order), o.userId ≠ "") ∧
    (∀ o ∈ ([⟨"u1", some "5"⟩, ⟨"u1", none⟩] : List Order),
      (([⟨"c1", "u1", "t"⟩] : List CustomerDoc).filter
        (fun c => o.userId = c.userId)).length = 1) ∧
    ((fetchCustomersRows [⟨"u1", some "5"⟩, ⟨"u1", none⟩]
        [⟨"c1", "u1", "t"⟩]).map (fun r => r.orderCount)).sum
      = (([⟨"u1", some "5"⟩, ⟨"u1", none⟩] : List Order).filter
          (fun o => (([⟨"c1", "u1", "t"⟩] : List CustomerDoc).map
            (fun c => c.userId)).contains o.userId)).length :=
  ⟨by decide, by decide,
   order_count_conservation [⟨"u1", some "5"⟩, ⟨"u1", none⟩]
     [⟨"c1", "u1", "t"⟩] (by decide) (by decide)⟩

/-- **C2** counterexample: one order and one customer sharing the empty
`userId`.  The §3 invariant holds (the order's `userId` matches exactly one
customer), yet the rows' `orderCount`s sum to `0` while exactly one order's
`userId` lies in the customers' `userId` set. -/
theorem order_count_conservation_cex :
    (∀ o ∈ ([⟨"", some "5"⟩] : List Order),
      (([⟨"c1", "", "t"⟩] : List CustomerDoc).filter
        (fun c => o.userId = c.userId)).length = 1) ∧
    ((fetchCustomersRows [⟨"", some "5"⟩] [⟨"c1", "", "t"⟩]).map
        (fun r => r.orderCount)).sum = 0 ∧
    (([⟨"", some "5"⟩] : List Order).filter
        (fun o => (([⟨"c1", "", "t"⟩] : List CustomerDoc).map
          (fun c => c.userId)).contains o.userId)).length = 1 := by
  refine ⟨by decide, by decide, by decide⟩

/-- **C8**.  Malformed numeric input never fails the aggregation: an order
whose `totalAmount` is missing or does not parse contributes `0` to the
total while still incrementing the order count; the grouping step is a total
function (`ordersStep` is defined on every state and order, with no error
path). -/
theorem malformed_amount_degrades_to_zero (m : String → Option Accum)
    (o : Order) (h0 : o.userId ≠ "")
    (h1 : o.totalAmount = none ∨
      ∀ s, o.totalAmount = some s → jsParseFloat s = none) :
    parsedAmount o.totalAmount = 0 ∧
    ordersStep m o o.userId
      = some ⟨((m o.userId).getD ⟨0, 0⟩).total,
              ((m o.userId).getD ⟨0, 0⟩).count + 1⟩ := by
  have hp : parsedAmount o.totalAmount = 0 := by
    rcases h1 with h1 | h1
    · rw [h1]; rfl
    · cases ht : o.totalAmount with
      | none => rfl
      | some s => simp [parsedAmount, h1 s ht]
  refine ⟨hp, ?_⟩
  rw [ordersStep_eq m o o.userId rfl h0, hp, add_zero]

/-- **C8** witness: the unparseable amount `"abc"` contributes `0` but is
counted. -/
theorem malformed_amount_degrades_to_zero_witness :
    ("u1" : String) ≠ "" ∧
    ((⟨"u1", some "abc"⟩ : Order).totalAmount = none ∨
      ∀ s, (⟨"u1", some "abc"⟩ : Order).totalAmount = some s →
        jsParseFloat s = none) ∧
    (parsedAmount (⟨"u1", some "abc"⟩ : Order).totalAmount = 0 ∧
     ordersStep (fun _ => none) ⟨"u1", some "abc"⟩ "u1" = some ⟨0, 0 + 1⟩) :=
  ⟨by decide,
   Or.inr (fun s hs => by cases hs; decide),
   malformed_amount_degrades_to_zero (fun _ => none) ⟨"u1", some "abc"⟩
     (by decide) (Or.inr (fun s hs => by cases hs; decide))⟩

/-- Auxiliary: lookup in the product-counting map, relative to an arbitrary
starting map, for a non-empty key. -/
lemma foldl_countStep_lookup (products : List ProductDoc)
    (m : String → Option Nat) (k : String) (h : k ≠ "") :
    ((products.foldl countStep m) k).getD 0
      = (m k).getD 0
        + (products.filter (fun p => p.categoryId = some k)).length := by
  induction products generalizing m with
  | nil => simp
  | cons p ps ih =>
    rw [List.foldl_cons, ih (countStep m p)]
    cases hcid : p.categoryId with
    | none => simp [countStep, hcid, List.filter_cons]
    | some cid =>
      by_cases hempty : cid = ""
      · have hne : ¬(p.categoryId = some k) := by
          rw [hcid, hempty]
          intro hcon
          exact h (Option.some.injEq .. ▸ hcon).symm
        have h2 : ¬("" = k) := fun hc => h hc.symm
        simp [countStep, hcid, hempty, List.filter_cons, hne, h2]
      · by_cases hk : k = cid
        · have hmatch : p.categoryId = some k := by rw [hcid, hk]
          simp only [countStep, hcid, if_neg hempty, hk, if_pos rfl,
            List.filter_cons, hmatch]
          simp [← hk]
          omega
        · have hne : ¬(p.categoryId = some k) := by
            rw [hcid]
            intro hcon
            exact hk (Option.some.injEq .. ▸ hcon).symm
          have h2 : ¬(cid = k) := fun hc => hk hc.symm
          simp [countStep, hcid, hempty, hk, List.filter_cons, hne, h2]

/-- Auxiliary: the derived `productCount` of a category with a non-empty id
is the number of products referencing it. -/
lemma productCount_eq (products : List ProductDoc) (g : CategoryDoc)
    (h : g.id ≠ "") :
    (categoryRow (productCounts products) g).productCount
      = (products.filter (fun p => p.categoryId = some g.id)).length := by
  unfold categoryRow productCounts
  simp only
  rw [foldl_countStep_lookup products _ g.id h]
  simp

/-- **C5**.  The category product-count aggregation produces one row per
category, and for each category (a Firestore document, whose id is a
non-empty string) the row's `productCount` is the number of products whose
`categoryId` equals the category's id; a category with no matching products
gets `0`.  Products with a missing, null or empty `categoryId` are skipped by
the `if (categoryId)` guard and match no category id, so they are excluded
from every count. -/
theorem category_product_counts_correct (categories : List CategoryDoc)
    (products : List ProductDoc) (g : CategoryDoc) (h : g.id ≠ "") :
    (fetchCategoriesRows categories products).length = categories.length ∧
    (categoryRow (productCounts products) g).productCount
      = (products.filter (fun p => p.categoryId = some g.id)).length ∧
    ((∀ p ∈ products, p.categoryId ≠ some g.id) →
      (categoryRow (productCounts products) g).productCount = 0) := by
  refine ⟨by simp [fetchCategoriesRows], productCount_eq products g h, ?_⟩
  intro hnone
  rw [productCount_eq products g h]
  simp only [List.length_eq_zero, List.filter_eq_nil_iff]
  intro p hp
  simpa using hnone p hp

/-- **C5** witness: one category `"c1"` holding one of two products (the
second product is uncategorized and counted nowhere). -/
theorem category_product_counts_correct_witness :
    ("c1" : String) ≠ "" ∧
    ((fetchCategoriesRows [⟨"c1", "Books"⟩]
        [⟨"p1", "A", some "d", some "c1"⟩, ⟨"p2", "B", some "d", none⟩]).length
      = ([⟨"c1", "Books"⟩] : List CategoryDoc).length ∧
    (categoryRow (productCounts
          [⟨"p1", "A", some "d", some "c1"⟩, ⟨"p2", "B", some "d", none⟩])
        ⟨"c1", "Books"⟩).productCount
      = (([⟨"p1", "A", some "d", some "c1"⟩,
           ⟨"p2", "B", some "d", none⟩] : List ProductDoc).filter
          (fun p => p.categoryId = some "c1")).length ∧
    ((∀ p ∈ ([⟨"p1", "A", some "d", some "c1"⟩,
              ⟨"p2", "B", some "d", none⟩] : List ProductDoc),
        p.categoryId ≠ some "c1") →
      (categoryRow (productCounts
          [⟨"p1", "A", some "d", some "c1"⟩, ⟨"p2", "B", some "d", none⟩])
        ⟨"c1", "Books"⟩).productCount = 0)) :=
  ⟨by decide,
   category_product_counts_correct [⟨"c1", "Books"⟩]
     [⟨"p1", "A", some "d", some "c1"⟩, ⟨"p2", "B", some "d", none⟩]
     ⟨"c1", "Books"⟩ (by decide)⟩

/-- Auxiliary: with duplicate-free category ids, `find?` over the derived
rows locates exactly the row of a listed category. -/
lemma find_categoryRow (categories : List CategoryDoc)
    (m : String → Option Nat) (g : CategoryDoc) (hg : g ∈ categories)
    (hnodup : (categories.map (fun x => x.id)).Nodup) :
    (categories.map (categoryRow m)).find? (fun r => r.id = g.id)
      = some (categoryRow m g) := by
  induction categories with
  | nil => cases hg
  | cons g0 gs ih =>
    have hnd : g0.id ∉ gs.map (fun x => x.id) ∧
        (gs.map (fun x => x.id)).Nodup := by
      rw [List.map_cons] at hnodup
      exact List.nodup_cons.mp hnodup
    by_cases he : g0.id = g.id
    · have hgg : g = g0 := by
        rcases List.mem_cons.mp hg with h1 | h1
        · exact h1
        · exfalso
          apply hnd.1
          rw [he]
          exact List.mem_map.mpr ⟨g, h1, rfl⟩
      subst hgg
      have hcond : (fun r => decide (r.id = g.id)) (categoryRow m g) = true := by
        simp [categoryRow]
      rw [List.map_cons]
      exact List.find?_cons_of_pos _ hcond
    · have hgs : g ∈ gs := by
        rcases List.mem_cons.mp hg with h1 | h1
        · exact absurd (congrArg CategoryDoc.id h1.symm) he
        · exact h1
      have hcond : ¬((fun r => decide (r.id = g.id)) (categoryRow m g0) = true) := by
        simp [categoryRow, he]
      rw [List.map_cons]
      exact (@List.find?_cons_of_neg _ (fun r => decide (r.id = g.id))
        (categoryRow m g0) (List.map (categoryRow m) gs) hcond).trans
        (ih hgs hnd.2)

/-- **C4**.  For a table state just populated by `fetchCategories` with a
pending delete of a listed category `g`: when `g`'s derived `productCount` is
positive the handler stops at the in-handler re-check, emitting only the
specific "Cannot delete category" notice — both row lists unchanged and no
`deleteDoc` among the issued calls; when the derived count is zero the
destructive call is issued.  Altogether `g` is deletable iff no product's
`categoryId` equals `g.id`. -/
theorem category_delete_guard (categories : List CategoryDoc)
    (products : List ProductDoc) (q : String) (g : CategoryDoc)
    (hg : g ∈ categories) (hid : g.id ≠ "")
    (hnodup : (categories.map (fun x => x.id)).Nodup) :
    let rows := fetchCategoriesRows categories products
    let s : CatState := ⟨rows, rows, q, some g.id⟩
    let cnt := (products.filter (fun p => p.categoryId = some g.id)).length
    (0 < cnt →
      (handleDeleteCategory s).1.categories = s.categories ∧
      (handleDeleteCategory s).1.filteredCategories = s.filteredCategories ∧
      (handleDeleteCategory s).2 = [Eff.toastError "Cannot delete category"] ∧
      issuesDelete s = false) ∧
    (cnt = 0 →
      (handleDeleteCategory s).2
        = [Eff.deleteDocCall "categories" g.id,
           Eff.toastSuccess "Category deleted"] ∧
      issuesDelete s = true) ∧
    (issuesDelete s = true ↔ cnt = 0) := by
  intro rows s cnt
  have hfind : s.categories.find? (fun r => r.id = g.id)
      = some (categoryRow (productCounts products) g) :=
    find_categoryRow categories (productCounts products) g hg hnodup
  have hcnt : (categoryRow (productCounts products) g).productCount = cnt :=
    productCount_eq products g hid
  by_cases hpos : 0 < cnt
  · have habort : handleDeleteCategory s
        = ({ s with deleteCategoryId := none },
           [Eff.toastError "Cannot delete category"]) := by
      unfold handleDeleteCategory
      simp only [hfind, hcnt]
      simp [hpos]
    refine ⟨fun _ => ?_, fun hz => absurd (hz ▸ hpos) (by simp), ?_⟩
    · refine ⟨by rw [habort], by rw [habort], by rw [habort], ?_⟩
      unfold issuesDelete
      rw [habort]
      rfl
    · constructor
      · intro hdel
        exfalso
        unfold issuesDelete at hdel
        rw [habort] at hdel
        simp at hdel
      · intro hz
        exact absurd (hz ▸ hpos) (by simp)
  · have hz : cnt = 0 := Nat.eq_zero_of_not_pos hpos
    have hproceed : (handleDeleteCategory s).2
        = [Eff.deleteDocCall "categories" g.id,
           Eff.toastSuccess "Category deleted"] := by
      unfold handleDeleteCategory
      simp only [hfind, hcnt, hz]
      simp
    have hdel : issuesDelete s = true := by
      unfold issuesDelete
      rw [hproceed]
      rfl
    exact ⟨fun hc => absurd hc hpos, fun _ => ⟨hproceed, hdel⟩,
      ⟨fun _ => hz, fun _ => hdel⟩⟩

/-- **C4** witness: the §8 scenario — the category `"c1"` with no products is
deletable, and the destructive call is issued. -/
theorem category_delete_guard_witness :
    (⟨"c1", "Books"⟩ : CategoryDoc) ∈ ([⟨"c1", "Books"⟩] : List CategoryDoc) ∧
    ("c1" : String) ≠ "" ∧
    (([⟨"c1", "Books"⟩] : List CategoryDoc).map (fun x => x.id)).Nodup ∧
    (let rows := fetchCategoriesRows [⟨"c1", "Books"⟩] []
     let s : CatState := ⟨rows, rows, "", some "c1"⟩
     let cnt := (([] : List ProductDoc).filter
        (fun p => p.categoryId = some "c1")).length
     (0 < cnt →
       (handleDeleteCategory s).1.categories = s.categories ∧
       (handleDeleteCategory s).1.filteredCategories = s.filteredCategories ∧
       (handleDeleteCategory s).2 = [Eff.toastError "Cannot delete category"] ∧
       issuesDelete s = false) ∧
     (cnt = 0 →
       (handleDeleteCategory s).2
         = [Eff.deleteDocCall "categories" "c1",
            Eff.toastSuccess "Category deleted"] ∧
       issuesDelete s = true) ∧
     (issuesDelete s = true ↔ cnt = 0)) :=
  ⟨by decide, by decide, by decide,
   category_delete_guard [⟨"c1", "Books"⟩] [] "" ⟨"c1", "Books"⟩
     (by decide) (by decide) (by decide)⟩

/-- Auxiliary: keys not present in a category list are untouched by the
`categoriesMap` construction. -/
lemma catMap_not_mem (categories : List CategoryDoc)
    (m : String → Option String) (k : String)
    (h : k ∉ categories.map (fun x => x.id)) :
    (categories.foldl catMapStep m) k = m k := by
  induction categories generalizing m with
  | nil => rfl
  | cons g gs ih =>
    rw [List.map_cons] at h
    have h1 : k ≠ g.id := fun hc => h (List.mem_cons.mpr (Or.inl hc))
    have h2 : k ∉ gs.map (fun x => x.id) :=
      fun hc => h (List.mem_cons.mpr (Or.inr hc))
    rw [List.foldl_cons, ih (catMapStep m g) h2]
    simp [catMapStep, h1]

/-- Auxiliary: with duplicate-free ids, `categoriesMap.get` on a listed
category's id yields that category's name. -/
lemma catMap_mem (categories : List CategoryDoc) (g : CategoryDoc)
    (hg : g ∈ categories)
    (hnodup : (categories.map (fun x => x.id)).Nodup) :
    buildCategoriesMap categories g.id = some g.name := by
  unfold buildCategoriesMap
  induction categories with
  | nil => cases hg
  | cons g0 gs ih =>
    have hnd : g0.id ∉ gs.map (fun x => x.id) ∧
        (gs.map (fun x => x.id)).Nodup := by
      rw [List.map_cons] at hnodup
      exact List.nodup_cons.mp hnodup
    rcases List.mem_cons.mp hg with h1 | h1
    · subst h1
      rw [List.foldl_cons, catMap_not_mem gs (catMapStep (fun _ => none) g) g.id hnd.1]
      simp [catMapStep]
    · have hW := ih h1 hnd.2
      rw [List.foldl_cons]
      have hkey : ∀ (m m1 : String → Option String) (k : String),
          (∀ k1, k1 ∈ gs.map (fun x => x.id) → m k1 = m1 k1) →
          k ∈ gs.map (fun x => x.id) →
          (gs.foldl catMapStep m) k = (gs.foldl catMapStep m1) k := by
        intro m m1 k hagree hk
        clear hW ih hg hnodup h1 hnd
        induction gs generalizing m m1 with
        | nil => cases hk
        | cons g2 gs2 ih2 =>
          rw [List.foldl_cons, List.foldl_cons]
          by_cases hmem : k ∈ gs2.map (fun x => x.id)
          · refine ih2 _ _ ?_ hmem
            intro k1 hk1
            unfold catMapStep
            by_cases hq : k1 = g2.id
            · simp [hq]
            · have := hagree k1 (by
                rw [List.map_cons]
                exact List.mem_cons.mpr (Or.inr hk1))
              simp [hq, this]
          · have hk2 : k = g2.id := by
              rw [List.map_cons] at hk
              rcases List.mem_cons.mp hk with hx | hx
              · exact hx
              · exact absurd hx hmem
            rw [catMap_not_mem gs2 _ k hmem, catMap_not_mem gs2 _ k hmem]
            simp [catMapStep, hk2]
      have hmemg : g.id ∈ gs.map (fun x => x.id) :=
        List.mem_map.mpr ⟨g, h1, rfl⟩
      rw [hkey (catMapStep (fun _ => none) g0) (fun _ => none) g.id ?_ hmemg]
      · exact hW
      · intro k1 hk1
        have : k1 ≠ g0.id := fun hc => hnd.1 (hc ▸ hk1)
        simp [catMapStep, this]

/-- **C3** counterexample: the claim's own scenario.  With
`products = [{categoryId: "missing"}]` and `categories = []`, the attached
`categoryName` is `undefined` (`none`) — `categoriesMap.get("missing")`
misses — and not the literal `"Uncategorized"`. -/
theorem category_name_resolver_cex :
    ((fetchProductsRows [⟨"p1", "A", some "d", some "missing"⟩] []).map
        (fun r => r.categoryName)) = [none] ∧
    (none : Option String) ≠ some "Uncategorized" := by
  decide

/-- **C3** (amended).  The resolver attaches to each product: the matching
category's name when `categoryId` is truthy and resolves (ids being
duplicate-free Firestore document ids); the literal `"Uncategorized"` when
`categoryId` is missing, null or empty; and `undefined` (`none`) when
`categoryId` is truthy but resolves to no category — in that last case the
literal `"Uncategorized"` appears only in the rendered cell
(`displayedCategoryLabel`), not in the attached field. -/
theorem category_name_resolver (categories : List CategoryDoc)
    (p : ProductDoc) (g : CategoryDoc) (hg : g ∈ categories)
    (hnodup : (categories.map (fun x => x.id)).Nodup) :
    (p.categoryId = none →
      (productRow (buildCategoriesMap categories) p).categoryName
        = some "Uncategorized") ∧
    (p.categoryId = some "" →
      (productRow (buildCategoriesMap categories) p).categoryName
        = some "Uncategorized") ∧
    (p.categoryId = some g.id → g.id ≠ "" →
      (productRow (buildCategoriesMap categories) p).categoryName
        = some g.name) ∧
    (∀ cid, p.categoryId = some cid → cid ≠ "" →
      buildCategoriesMap categories cid = none →
      (productRow (buildCategoriesMap categories) p).categoryName = none ∧
      displayedCategoryLabel (productRow (buildCategoriesMap categories) p)
        = "Uncategorized") := by
  refine ⟨fun h => by simp [productRow, h], fun h => by simp [productRow, h],
    fun h hne => ?_, fun cid h hne hmiss => ?_⟩
  · simp only [productRow, h, if_neg hne]
    exact catMap_mem categories g hg hnodup
  · have hrow : (productRow (buildCategoriesMap categories) p).categoryName
        = none := by
      simp only [productRow, h, if_neg hne]
      exact hmiss
    exact ⟨hrow, by simp [displayedCategoryLabel, hrow]⟩

/-- **C3** witness: a resolving product, an empty-`categoryId` product and a
dangling `categoryId`, against the single category `"c1"`. -/
theorem category_name_resolver_witness :
    (⟨"c1", "Books"⟩ : CategoryDoc) ∈ ([⟨"c1", "Books"⟩] : List CategoryDoc) ∧
    (([⟨"c1", "Books"⟩] : List CategoryDoc).map (fun x => x.id)).Nodup ∧
    (((⟨"p1", "A", some "d", some "c1"⟩ : ProductDoc).categoryId = none →
      (productRow (buildCategoriesMap [⟨"c1", "Books"⟩])
        ⟨"p1", "A", some "d", some "c1"⟩).categoryName
        = some "Uncategorized") ∧
    ((⟨"p1", "A", some "d", some "c1"⟩ : ProductDoc).categoryId = some "" →
      (productRow (buildCategoriesMap [⟨"c1", "Books"⟩])
        ⟨"p1", "A", some "d", some "c1"⟩).categoryName
        = some "Uncategorized") ∧
    ((⟨"p1", "A", some "d", some "c1"⟩ : ProductDoc).categoryId
        = some (⟨"c1", "Books"⟩ : CategoryDoc).id →
      (⟨"c1", "Books"⟩ : CategoryDoc).id ≠ "" →
      (productRow (buildCategoriesMap [⟨"c1", "Books"⟩])
        ⟨"p1", "A", some "d", some "c1"⟩).categoryName
        = some (⟨"c1", "Books"⟩ : CategoryDoc).name) ∧
    (∀ cid, (⟨"p1", "A", some "d", some "c1"⟩ : ProductDoc).categoryId
        = some cid → cid ≠ "" →
      buildCategoriesMap [⟨"c1", "Books"⟩] cid = none →
      (productRow (buildCategoriesMap [⟨"c1", "Books"⟩])
        ⟨"p1", "A", some "d", some "c1"⟩).categoryName = none ∧
      displayedCategoryLabel (productRow (buildCategoriesMap [⟨"c1", "Books"⟩])
        ⟨"p1", "A", some "d", some "c1"⟩) = "Uncategorized")) :=
  ⟨by decide, by decide,
   category_name_resolver [⟨"c1", "Books"⟩] ⟨"p1", "A", some "d", some "c1"⟩
     ⟨"c1", "Books"⟩ (by decide) (by decide)⟩

/-- **C7**.  A product whose `categoryId` is null or absent resolves to the
attached label `"Uncategorized"`, whatever the category set: the falsy branch
of `data.categoryId ? ... : "Uncategorized"` never consults the map. -/
theorem null_category_id_uncategorized (categories : List CategoryDoc)
    (p : ProductDoc) (h : p.categoryId = none) :
    (productRow (buildCategoriesMap categories) p).categoryName
      = some "Uncategorized" := by
  simp [productRow, h]

/-- **C7** witness: a `categoryId`-less product against a non-empty category
set. -/
theorem null_category_id_uncategorized_witness :
    ((⟨"p2", "B", some "d", none⟩ : ProductDoc).categoryId = none) ∧
    (productRow (buildCategoriesMap [⟨"c1", "Books"⟩])
        ⟨"p2", "B", some "d", none⟩).categoryName = some "Uncategorized" :=
  ⟨by decide,
   null_category_id_uncategorized [⟨"c1", "Books"⟩]
     ⟨"p2", "B", some "d", none⟩ (by decide)⟩

/-- **C6**.  The local substring search filter is idempotent — filtering an
already-filtered list by the same query returns the same list — and the empty
query is the identity on row order and content (the source's
`if (searchQuery)` branch returns the full list untouched). -/
theorem substring_filter_idempotent {α : Type} (sel : α → String → Bool)
    (q : String) (L : List α) :
    localFilter sel q (localFilter sel q L) = localFilter sel q L ∧
    localFilter sel "" L = L := by
  constructor
  · by_cases hq : q = ""
    · simp [localFilter, hq]
    · simp only [localFilter, if_neg hq]
      induction L with
      | nil => rfl
      | cons a as ih =>
        by_cases ha : sel a q <;> simp [List.filter_cons, ha, ih]
  · simp [localFilter]

/-- Auxiliary: the query filter commutes with dropping rows by a predicate
(deleting by id). -/
lemma localFilter_filter_comm {α : Type} (sel : α → String → Bool)
    (q : String) (p : α → Bool) (L : List α) :
    localFilter sel q (L.filter p) = (localFilter sel q L).filter p := by
  by_cases hq : q = ""
  · simp [localFilter, hq]
  · simp only [localFilter, if_neg hq]
    induction L with
    | nil => rfl
    | cons a as ih =>
      by_cases hp : p a <;> by_cases hs : sel a q <;>
        simp [List.filter_cons, hp, hs, ih]

/-- **C9**.  The displayed-list invariant `filtered =
localFilter sel query rows` is established by a fetch completing under the
empty query, re-established by every query change, and preserved by a
successful delete — both the generic `deleteRow` (as in
`handleDeleteProduct`) and the guarded `handleDeleteCategory`, whose abort
path leaves both lists untouched and whose proceed path drops the deleted id
from both. -/
theorem displayed_list_invariant {α : Type} (sel : α → String → Bool)
    (idOf : α → String) (s0 s1 : TableState α) (data : List α)
    (q1 d : String) (cs : CatState)
    (h0 : s0.query = "") (h1 : tableInv sel s1) (h2 : catInv cs) :
    tableInv sel (fetchComplete data s0) ∧
    tableInv sel (setQuery sel q1 s1) ∧
    tableInv sel (deleteRow idOf d s1) ∧
    catInv (handleDeleteCategory cs).1 := by
  refine ⟨?_, ?_, ?_, ?_⟩
  · unfold tableInv fetchComplete
    simp [h0, localFilter]
  · unfold tableInv setQuery
    rfl
  · unfold tableInv deleteRow
    simp only
    rw [h1, localFilter_filter_comm]
  · unfold handleDeleteCategory
    cases hdc : cs.deleteCategoryId with
    | none => exact h2
    | some did =>
      cases hf : cs.categories.find? (fun c => c.id = did) with
      | some c =>
        by_cases hp : 0 < c.productCount
        · simp only [hf, if_pos hp]
          exact h2
        · simp only [hf, if_neg hp]
          unfold catInv at h2 ⊢
          simp only
          rw [h2, localFilter_filter_comm]
      | none =>
        simp only [hf]
        unfold catInv at h2 ⊢
        simp only
        rw [h2, localFilter_filter_comm]

/-- **C9** witness: the categories screen on a one-row state under the empty
query, deleting the productless row `"c1"`. -/
theorem displayed_list_invariant_witness :
    (⟨[⟨"r1", "Books", 0⟩], [⟨"r1", "Books", 0⟩], ""⟩
        : TableState CategoryRow).query = "" ∧
    tableInv categoryMatches
      (⟨[⟨"r1", "Books", 0⟩], [⟨"r1", "Books", 0⟩], ""⟩
        : TableState CategoryRow) ∧
    catInv (⟨[⟨"c1", "Books", 0⟩], [⟨"c1", "Books", 0⟩], "", some "c1"⟩
        : CatState) ∧
    (tableInv categoryMatches
      (fetchComplete [⟨"r1", "Books", 0⟩]
        (⟨[⟨"r1", "Books", 0⟩], [⟨"r1", "Books", 0⟩], ""⟩
          : TableState CategoryRow)) ∧
    tableInv categoryMatches
      (setQuery categoryMatches "books"
        (⟨[⟨"r1", "Books", 0⟩], [⟨"r1", "Books", 0⟩], ""⟩
          : TableState CategoryRow)) ∧
    tableInv categoryMatches
      (deleteRow (fun r => r.id) "r1"
        (⟨[⟨"r1", "Books", 0⟩], [⟨"r1", "Books", 0⟩], ""⟩
          : TableState CategoryRow)) ∧
    catInv (handleDeleteCategory
      (⟨[⟨"c1", "Books", 0⟩], [⟨"c1", "Books", 0⟩], "", some "c1"⟩
        : CatState)).1) :=
  ⟨rfl, rfl, rfl,
   displayed_list_invariant categoryMatches (fun r => r.id)
     ⟨[⟨"r1", "Books", 0⟩], [⟨"r1", "Books", 0⟩], ""⟩
     ⟨[⟨"r1", "Books", 0⟩], [⟨"r1", "Books", 0⟩], ""⟩
     [⟨"r1", "Books", 0⟩] "books" "r1"
     ⟨[⟨"c1", "Books", 0⟩], [⟨"c1", "Books", 0⟩], "", some "c1"⟩
     rfl rfl rfl⟩

deriving instance DecidableEq for Except

/-- Auxiliary: on a row whose `description` is present, the runtime products
match never throws and agrees with the interface-level match. -/
lemma productMatchRt_ok (p : ProductRow) (q : String)
    (h : p.description ≠ none) :
    productMatchRt p q = Except.ok (productMatches p q) := by
  cases hd : p.description with
  | none => exact absurd hd h
  | some d =>
    unfold productMatchRt productMatches
    by_cases hn : jsIncludes (jsToLower p.name) (jsToLower q) <;> simp [hn, hd]

/-- **C10**.  The products search filter is total only under the precondition
that every row carries a string `description`: with the precondition the
run returns a subsequence of the rows, while a product document lacking a
`description` together with a non-empty query that misses its name makes the
unguarded `product.description.toLowerCase()` throw. -/
theorem products_filter_partial (L : List ProductRow) (q : String)
    (h : ∀ p ∈ L, p.description ≠ none) :
    (∃ r, productsFilterRun q L = Except.ok r ∧ r.Sublist L) ∧
    productsFilterRun "z" [⟨"p1", "A", none, none, some "Uncategorized"⟩]
      = Except.error () := by
  constructor
  · by_cases hq : q = ""
    · exact ⟨L, by simp [productsFilterRun, hq], List.Sublist.refl L⟩
    · refine ⟨L.filter (fun p => productMatches p q), ?_, List.filter_sublist L⟩
      unfold productsFilterRun
      rw [if_neg hq]
      induction L with
      | nil => rfl
      | cons p ps ih =>
        have hp : p.description ≠ none := h p (List.mem_cons_self p ps)
        have hps : ∀ x ∈ ps, x.description ≠ none :=
          fun x hx => h x (List.mem_cons.mpr (Or.inr hx))
        unfold productFilterRt
        rw [productMatchRt_ok p q hp, ih hps]
        by_cases hm : productMatches p q <;> simp [List.filter_cons, hm]
  · decide

/-- **C10** witness: a one-row list with a present description, filtered by a
missing query. -/
theorem products_filter_partial_witness :
    (∀ p ∈ ([⟨"p1", "A", some "desc", none, some "Uncategorized"⟩]
        : List ProductRow), p.description ≠ none) ∧
    ((∃ r, productsFilterRun "z"
        [⟨"p1", "A", some "desc", none, some "Uncategorized"⟩]
        = Except.ok r ∧
        r.Sublist [⟨"p1", "A", some "desc", none, some "Uncategorized"⟩]) ∧
    productsFilterRun "z" [⟨"p1", "A", none, none, some "Uncategorized"⟩]
      = Except.error ()) :=
  ⟨by decide,
   products_filter_partial [⟨"p1", "A", some "desc", none, some "Uncategorized"⟩]
     "z" (by decide)⟩

end LankaShop
